import Mathlib

/-
  Verification of `wren-ai-service/src/pipelines/common.py`.

  Shallow embedding conventions:
  * Python strings are Lean `String`s; `str.lower()` / `str.upper()` are modelled
    character-wise with `Char.toLower` / `Char.toUpper` (ASCII case mapping).
  * Python `set`s of strings are modelled as `List String` with membership
    semantics; an `Optional[set[str]]` parameter is `Option (List String)`.
    Python truthiness of an optional set (`not columns`) is `optFalsy`:
    true for `none` and for the empty set.
  * Float scores are modelled as rationals (`ℚ`): the order-theoretic behaviour
    of comparisons on (non-NaN) floats is that of the rationals.
  * The async retriever collaborator is modelled as an explicit function
    argument from the constructed filters to the returned document list.
-/

namespace Tabaqat

/-- Character-wise lower-casing, modelling Python `str.lower()` (ASCII). -/
def strLower (s : String) : String :=
  String.mk (s.data.map Char.toLower)

/-- Character-wise upper-casing, modelling Python `str.upper()` (ASCII). -/
def strUpper (s : String) : String :=
  String.mk (s.data.map Char.toUpper)

/-- Embedding of `get_engine_supported_data_type` (common.py lines 7-29):
a `match data_type.upper()` over the vendor type names, defaulting to
`data_type.upper()`. -/
def get_engine_supported_data_type (data_type : String) : String :=
  match strUpper data_type with
  | "BPCHAR" | "NAME" | "UUID" | "INET" => "VARCHAR"
  | "OID" => "INT"
  | "BIGNUMERIC" => "NUMERIC"
  | "BYTES" => "BYTEA"
  | "DATETIME" => "TIMESTAMP"
  | "FLOAT64" => "DOUBLE"
  | "INT64" => "BIGINT"
  | "GEOMETRY" | "GEOGRAPHY" | "POINT" | "LINESTRING" | "POLYGON"
  | "MULTIPOINT" | "MULTILINESTRING" | "MULTIPOLYGON" | "GEOMETRYCOLLECTION" =>
    "GEOMETRY"
  | _ => strUpper data_type

/-- Embedding of the module-level constant `GEOMETRY_TYPES` (common.py lines 32-36). -/
def GEOMETRY_TYPES : List String :=
  ["geometry", "geography", "point", "linestring", "polygon",
   "multipoint", "multilinestring", "multipolygon", "geometrycollection"]

/-- Embedding of `is_geometry_type` (common.py lines 39-41):
`data_type.lower() in GEOMETRY_TYPES`. -/
def is_geometry_type (data_type : String) : Bool :=
  GEOMETRY_TYPES.contains (strLower data_type)

/-- Does `needle` occur at the head of `hay`? (helper for Python `in` on strings). -/
def matchesAt : List Char → List Char → Bool
  | [], _ => true
  | _ :: _, [] => false
  | a :: as, b :: bs => a == b && matchesAt as bs

/-- Does `needle` occur as a contiguous substring of `hay`?
Models Python `needle in hay` for strings. -/
def containsSub (needle : List Char) : List Char → Bool
  | [] => needle.isEmpty
  | b :: bs => matchesAt needle (b :: bs) || containsSub needle bs

/-- The marker substring tested by `build_table_ddl` on column comments. -/
def calculatedFieldTag : String := "This column is a Calculated Field"

/-- A `COLUMN`-typed entry of `content["columns"]` in `build_table_ddl`. -/
structure Column where
  name : String
  data_type : String
  comment : String
  is_primary_key : Bool
deriving DecidableEq

/-- A `FOREIGN_KEY`-typed entry of `content["columns"]` in `build_table_ddl`. -/
structure ForeignKey where
  comment : String
  constraint : String
  tables : List String
deriving DecidableEq

/-- An entry of `content["columns"]`, discriminated by its `"type"` field. -/
inductive TableColumn where
  | column : Column → TableColumn
  | foreign_key : ForeignKey → TableColumn
deriving DecidableEq

/-- The `content` dict consumed by `build_table_ddl`. -/
structure TableContent where
  name : String
  comment : String
  columns : List TableColumn
deriving DecidableEq

/-- Python truthiness test `not s` for an `Optional[set[str]]`:
true when the filter is absent (`None`) or the empty set. -/
def optFalsy : Option (List String) → Bool
  | none => true
  | some l => l.isEmpty

/-- Membership of `x` in an optional set (only reached when the set is truthy). -/
def optContains (o : Option (List String)) (x : String) : Bool :=
  match o with
  | none => false
  | some l => l.contains x

/-- The column inclusion test of `build_table_ddl` (common.py lines 57-60):
`(not columns or (columns and column["name"] in columns)) and
 (data_type_lower != "unknown" or is_geometry)`. -/
def columnIncluded (columns : Option (List String)) (c : Column) : Bool :=
  let data_type_lower := strLower c.data_type
  let is_geometry := is_geometry_type data_type_lower
  (optFalsy columns || optContains columns c.name)
    && (data_type_lower != "unknown" || is_geometry)

/-- The foreign-key inclusion test of `build_table_ddl` (common.py line 72):
`not tables or (tables and set(column["tables"]).issubset(tables))`. -/
def fkIncluded (tables : Option (List String)) (fk : ForeignKey) : Bool :=
  optFalsy tables || fk.tables.all (fun t => optContains tables t)

/-- The loop body of `build_table_ddl` (common.py lines 52-73), processed
entry by entry: returns the accumulated `columns_ddl` list and the three flags
`(has_calculated_field, has_json_field, has_geometry_field)`. -/
def buildColumnsDdl (columns tables : Option (List String)) :
    List TableColumn → List String × Bool × Bool × Bool
  | [] => ([], false, false, false)
  | TableColumn.column c :: rest =>
    let r := buildColumnsDdl columns tables rest
    let data_type_lower := strLower c.data_type
    let is_geometry := is_geometry_type data_type_lower
    if columnIncluded columns c then
      let column_ddl :=
        c.comment ++ c.name ++ " " ++ get_engine_supported_data_type c.data_type
      let column_ddl :=
        if c.is_primary_key then column_ddl ++ " PRIMARY KEY" else column_ddl
      (column_ddl :: r.1,
       containsSub calculatedFieldTag.data c.comment.data || r.2.1,
       (data_type_lower == "json") || r.2.2.1,
       is_geometry || r.2.2.2)
    else r
  | TableColumn.foreign_key fk :: rest =>
    let r := buildColumnsDdl columns tables rest
    if fkIncluded tables fk then
      ((fk.comment ++ fk.constraint) :: r.1, r.2.1, r.2.2.1, r.2.2.2)
    else r

/-- Python `sep.join(parts)`. -/
def joinSep (sep : String) : List String → String
  | [] => ""
  | [s] => s
  | s :: rest => s ++ sep ++ joinSep sep rest

/-- Embedding of `build_table_ddl` (common.py lines 44-84). In the source the
two optional filter arguments default to `None`. -/
def build_table_ddl (content : TableContent)
    (columns tables : Option (List String)) : String × Bool × Bool × Bool :=
  let r := buildColumnsDdl columns tables content.columns
  (content.comment ++ "CREATE TABLE " ++ content.name ++ " (\n  "
     ++ joinSep ",\n  " r.1 ++ "\n);",
   r.2.1, r.2.2.1, r.2.2.2)

/-- A haystack `Document`: a score (float, modelled as `ℚ`) and a `meta`
mapping (modelled as an association list). -/
structure Document where
  score : ℚ
  meta : List (String × String)
deriving DecidableEq

/-- The filters dict built by `retrieve_metadata` when `project_id` is truthy:
`{"operator": "AND", "conditions": [{"field": "project_id", "operator": "==",
"value": project_id}]}`, of which only the `project_id` value varies. -/
structure ProjectFilter where
  project_id : String
deriving DecidableEq

/-- The filters argument `retrieve_metadata` passes to the retriever:
`None` unless `project_id` is truthy (a non-empty string). -/
def project_filters (project_id : String) : Option ProjectFilter :=
  if project_id == "" then none else some (ProjectFilter.mk project_id)

/-- Embedding of `retrieve_metadata` (common.py lines 87-105). The awaited
retriever collaborator is an explicit function from the filters to the
returned document list; the function returns the first document's `meta`
when the list is non-empty, and the empty mapping otherwise. -/
def retrieve_metadata (project_id : String)
    (retriever : Option ProjectFilter → List Document) : List (String × String) :=
  let documents := retriever (project_filters project_id)
  match documents with
  | doc :: _ => doc.meta
  | [] => []

namespace ScoreFilter

/-- Embedding of `ScoreFilter.run` (common.py lines 112-125): keep the
documents scoring at least `score`, stable-sort them by descending score
(Python `sorted(..., reverse=True)` is a stable descending sort), and truncate
to the first `max_size`. In the source `score` defaults to `0.9` and
`max_size` to `10`; the returned `{"documents": ...}` dict is modelled as the
list itself. -/
def run (documents : List Document) (score : ℚ) (max_size : Nat) : List Document :=
  ((documents.filter (fun document => decide (score ≤ document.score))).mergeSort
      (fun a b => decide (b.score ≤ a.score))).take max_size

end ScoreFilter

/-- Embedding of `clean_up_new_lines` / `MULTIPLE_NEW_LINE_REGEX`
(common.py lines 128-132) at the level of character lists:
`re.sub(r"\n{3,}", "\n\n\n", text)` replaces every maximal run of three or
more newline characters by exactly three newline characters. -/
def collapseRuns : List Char → List Char
  | [] => []
  | c :: cs =>
    if c == '\n' then
      let run := c :: cs.takeWhile (fun ch => ch == '\n')
      (if 3 ≤ run.length then ['\n', '\n', '\n'] else run)
        ++ collapseRuns (cs.dropWhile (fun ch => ch == '\n'))
    else
      c :: collapseRuns cs
termination_by l => l.length
decreasing_by
  · exact Nat.lt_succ_of_le (List.dropWhile_sublist _).length_le
  · exact Nat.lt_succ_self _

/-- Embedding of `clean_up_new_lines` (common.py lines 131-132). -/
def clean_up_new_lines (text : String) : String :=
  String.mk (collapseRuns text.data)

/-- Streaming reformulation of `collapseRuns` used in proofs: `r` counts the
newline characters already kept from the current run; further newlines of a
run are dropped once three have been kept. Structural, hence kernel-reducible. -/
def collapseGo (r : Nat) : List Char → List Char
  | [] => []
  | c :: cs =>
    if c == '\n' then
      if 3 ≤ r then collapseGo r cs else c :: collapseGo (r + 1) cs
    else
      c :: collapseGo 0 cs

/-- Decomposition of a character list into maximal chunks: each maximal run
of consecutive newline characters is one chunk, every other character is a
singleton chunk. -/
def newlineChunks : List Char → List (List Char)
  | [] => []
  | c :: cs =>
    let gs := newlineChunks cs
    if c == '\n' then
      match gs with
      | (d :: g) :: rest => if d == '\n' then (c :: d :: g) :: rest else [c] :: gs
      | _ => [c] :: gs
    else
      [c] :: gs

/-- Written from the spec sentence: replace every maximal run of three or
more consecutive newline characters by exactly `m` newline characters,
leaving all other characters unchanged.  (A chunk of length at least two is
a newline run by construction of `newlineChunks`.) -/
def replaceLongNewlineRuns (m : Nat) (text : String) : String :=
  String.mk
    (((newlineChunks text.data).map
        (fun g => if 3 ≤ g.length then List.replicate m '\n' else g)).flatten)

/-- Written from the spec/claim wording for the foreign-key inclusion test:
the filter is absent, or every referenced table is in the filter. -/
def fkIncludedSpec (tables : Option (List String)) (fk : ForeignKey) : Prop :=
  tables = none ∨ ∃ l, tables = some l ∧ ∀ t ∈ fk.tables, t ∈ l

/-- Written from the claim wording for `get_engine_supported_data_type`:
the mapping table from upper-cased vendor names to canonical names. -/
def engineTypeMap : List (String × String) :=
  [("BPCHAR", "VARCHAR"), ("NAME", "VARCHAR"), ("UUID", "VARCHAR"),
   ("INET", "VARCHAR"), ("OID", "INT"), ("BIGNUMERIC", "NUMERIC"),
   ("BYTES", "BYTEA"), ("DATETIME", "TIMESTAMP"), ("FLOAT64", "DOUBLE"),
   ("INT64", "BIGINT"), ("GEOMETRY", "GEOMETRY"), ("GEOGRAPHY", "GEOMETRY"),
   ("POINT", "GEOMETRY"), ("LINESTRING", "GEOMETRY"), ("POLYGON", "GEOMETRY"),
   ("MULTIPOINT", "GEOMETRY"), ("MULTILINESTRING", "GEOMETRY"),
   ("MULTIPOLYGON", "GEOMETRY"), ("GEOMETRYCOLLECTION", "GEOMETRY")]

/-! ### Helper lemmas about the newline machinery -/

theorem collapseGo_cons_nl_ge (r : Nat) (cs : List Char) (h : 3 ≤ r) :
    collapseGo r ('\n' :: cs) = collapseGo r cs := by
  simp [collapseGo, h]

theorem collapseGo_cons_nl_lt (r : Nat) (cs : List Char) (h : ¬ 3 ≤ r) :
    collapseGo r ('\n' :: cs) = '\n' :: collapseGo (r + 1) cs := by
  simp [collapseGo, h]

theorem collapseGo_cons_other (r : Nat) (c : Char) (cs : List Char) (h : ¬ c = '\n') :
    collapseGo r (c :: cs) = c :: collapseGo 0 cs := by
  simp [collapseGo, h]

/-- Characterization of `collapseGo`: it keeps `min k (3 - r)` newlines of the
leading newline run of length `k`, then restarts after the run. -/
theorem collapseGo_eq (cs : List Char) : ∀ r : Nat,
    collapseGo r cs
      = List.replicate
          (min ((cs.takeWhile (fun ch => ch == '\n')).length) (3 - r)) '\n'
        ++ collapseGo 0 (cs.dropWhile (fun ch => ch == '\n')) := by
  induction cs with
  | nil => intro r; simp [collapseGo]
  | cons c cs IH =>
    intro r
    by_cases hc : c = '\n'
    · subst hc
      rw [List.takeWhile_cons, List.dropWhile_cons]
      simp only [beq_self_eq_true, if_true, List.length_cons]
      by_cases hr : 3 ≤ r
      · rw [collapseGo_cons_nl_ge _ _ hr, IH r]
        have h0 : 3 - r = 0 := by omega
        simp [h0]
      · rw [collapseGo_cons_nl_lt _ _ hr, IH (r + 1)]
        have h1 : 3 - r = (3 - (r + 1)) + 1 := by omega
        rw [h1, Nat.succ_min_succ, List.replicate_succ, List.cons_append]
    · rw [collapseGo_cons_other _ _ _ hc, List.takeWhile_cons, List.dropWhile_cons]
      have hb : (c == '\n') = false := by simpa using hc
      simp [hb, collapseGo_cons_other _ _ _ hc]

/-- Every character kept by `takeWhile (· == newline)` is a newline, so the
prefix is a replicate. -/
theorem takeWhile_nl_eq_replicate (l : List Char) :
    l.takeWhile (fun ch => ch == '\n')
      = List.replicate (l.takeWhile (fun ch => ch == '\n')).length '\n' :=
  List.eq_replicate_iff.mpr
    ⟨rfl, fun b hb => by simpa using List.mem_takeWhile_imp hb⟩

theorem collapseRuns_nil : collapseRuns [] = [] := by
  rw [collapseRuns]

theorem collapseRuns_cons_nl (cs : List Char) :
    collapseRuns ('\n' :: cs)
      = (if 3 ≤ ('\n' :: cs.takeWhile (fun ch => ch == '\n')).length
         then ['\n', '\n', '\n'] else '\n' :: cs.takeWhile (fun ch => ch == '\n'))
        ++ collapseRuns (cs.dropWhile (fun ch => ch == '\n')) := by
  rw [collapseRuns]
  simp

theorem collapseRuns_cons_other (c : Char) (cs : List Char) (h : ¬ c = '\n') :
    collapseRuns (c :: cs) = c :: collapseRuns cs := by
  rw [collapseRuns]
  simp [h]

/-- `collapseRuns` agrees with its streaming reformulation `collapseGo 0`. -/
theorem collapseRuns_eq_go (cs : List Char) : collapseRuns cs = collapseGo 0 cs := by
  induction cs using collapseRuns.induct with
  | case1 => simp [collapseRuns_nil, collapseGo]
  | case2 c cs hc IH =>
    have hch : c = '\n' := by simpa using hc
    subst hch
    rw [collapseRuns_cons_nl, collapseGo_eq ('\n' :: cs) 0]
    rw [List.takeWhile_cons, List.dropWhile_cons]
    simp only [beq_self_eq_true, if_true, List.length_cons]
    rw [IH]
    congr 1
    by_cases h3 : 3 ≤ (cs.takeWhile (fun ch => ch == '\n')).length + 1
    · have hmin :
          min ((cs.takeWhile (fun ch => ch == '\n')).length + 1) (3 - 0) = 3 := by
        omega
      simp only [h3, if_true, hmin]
      rfl
    · have hmin :
          min ((cs.takeWhile (fun ch => ch == '\n')).length + 1) (3 - 0)
            = (cs.takeWhile (fun ch => ch == '\n')).length + 1 := by
        omega
      simp only [h3, if_false, hmin]
      rw [List.replicate_succ]
      congr 1
      exact takeWhile_nl_eq_replicate cs
  | case3 c cs hc IH =>
    have hcn : ¬ c = '\n' := by simpa using hc
    rw [collapseRuns_cons_other _ _ hcn, collapseGo_cons_other _ _ _ hcn, IH]

/-- `collapseGo` is idempotent at every state. -/
theorem collapseGo_idem (cs : List Char) : ∀ r : Nat,
    collapseGo r (collapseGo r cs) = collapseGo r cs := by
  induction cs with
  | nil => intro r; simp [collapseGo]
  | cons c cs IH =>
    intro r
    by_cases hc : c = '\n'
    · subst hc
      by_cases hr : 3 ≤ r
      · rw [collapseGo_cons_nl_ge _ _ hr]; exact IH r
      · rw [collapseGo_cons_nl_lt _ _ hr, collapseGo_cons_nl_lt _ _ hr, IH (r + 1)]
    · rw [collapseGo_cons_other _ _ _ hc, collapseGo_cons_other _ _ _ hc, IH 0]

theorem newlineChunks_cons_other (c : Char) (cs : List Char) (h : ¬ c = '\n') :
    newlineChunks (c :: cs) = [c] :: newlineChunks cs := by
  rw [newlineChunks]
  simp [h]

/-- The first chunk of a non-empty list starts with the head of the list. -/
theorem newlineChunks_cons_head (c : Char) (cs : List Char) :
    ∃ g gs, newlineChunks (c :: cs) = (c :: g) :: gs := by
  rw [newlineChunks]
  by_cases hc : c = '\n'
  · simp only [hc, beq_self_eq_true, if_true]
    rcases hgs : newlineChunks cs with _ | ⟨_ | ⟨d, g⟩, rest⟩
    · exact ⟨[], [], rfl⟩
    · exact ⟨[], [] :: rest, rfl⟩
    · by_cases hd : d = '\n'
      · subst hd
        simp only [beq_self_eq_true, if_true]
        exact ⟨'\n' :: g, rest, rfl⟩
      · have hb : (d == '\n') = false := by simpa using hd
        simp only [hb, Bool.false_eq_true, if_false]
        exact ⟨[], (d :: g) :: rest, rfl⟩
  · have hb : (c == '\n') = false := by simpa using hc
    simp only [hb, Bool.false_eq_true, if_false]
    exact ⟨[], newlineChunks cs, rfl⟩

/-- A leading maximal newline run becomes the first chunk. -/
theorem newlineChunks_replicate (k : Nat) (hk : 1 ≤ k) (rest : List Char)
    (hrest : rest.head? ≠ some '\n') :
    newlineChunks (List.replicate k '\n' ++ rest)
      = List.replicate k '\n' :: newlineChunks rest := by
  induction k with
  | zero => omega
  | succ k IH =>
    by_cases hk0 : k = 0
    · subst hk0
      simp only [List.replicate_succ, List.replicate_zero, List.nil_append,
        List.cons_append]
      rw [newlineChunks]
      simp only [List.nil_append, beq_self_eq_true, if_true]
      rcases hr : rest with _ | ⟨d, ds⟩
      · rw [newlineChunks]
      · have hd : ¬ d = '\n' := by
          rw [hr] at hrest
          simpa using hrest
        rw [newlineChunks_cons_other _ _ hd]
        have hb : (d == '\n') = false := by simpa using hd
        simp [hb]
    · have hk1 : 1 ≤ k := by omega
      have IH1 := IH hk1
      rw [List.replicate_succ, List.cons_append, newlineChunks]
      simp only [IH1, beq_self_eq_true, if_true]
      rcases hkk : List.replicate k '\n' with _ | ⟨d, g⟩
      · exfalso
        have := congrArg List.length hkk
        simp at this
        omega
      · have hd : d = '\n' := by
          have : d ∈ List.replicate k '\n' := by rw [hkk]; exact List.mem_cons_self _ _
          simpa using List.eq_of_mem_replicate this
        subst hd
        simp only [beq_self_eq_true, if_true]

/-- After dropping the leading newlines, the remainder does not start with a
newline. -/
theorem head?_dropWhile_nl (l : List Char) :
    (l.dropWhile (fun ch => ch == '\n')).head? ≠ some '\n' := by
  induction l with
  | nil => simp
  | cons c cs IH =>
    rw [List.dropWhile_cons]
    by_cases hc : c = '\n'
    · simpa [hc] using IH
    · have hb : (c == '\n') = false := by simpa using hc
      simp [hb, hc]

/-- `collapseRuns` is exactly the chunk-wise replacement of every maximal
newline run of length at least three by three newlines. -/
theorem collapseRuns_eq_chunks (cs : List Char) :
    collapseRuns cs
      = ((newlineChunks cs).map
          (fun g => if 3 ≤ g.length then List.replicate 3 '\n' else g)).flatten := by
  induction cs using collapseRuns.induct with
  | case1 => rw [collapseRuns_nil, newlineChunks]; rfl
  | case2 c cs hc IH =>
    have hch : c = '\n' := by simpa using hc
    subst hch
    rw [collapseRuns_cons_nl]
    have hdecomp : '\n' :: cs
        = List.replicate ((cs.takeWhile (fun ch => ch == '\n')).length + 1) '\n'
          ++ cs.dropWhile (fun ch => ch == '\n') := by
      conv_lhs => rw [← List.takeWhile_append_dropWhile (fun ch => ch == '\n') cs]
      rw [List.replicate_succ, List.cons_append]
      congr 2
      exact takeWhile_nl_eq_replicate cs
    conv_rhs => rw [hdecomp]
    rw [newlineChunks_replicate _ (by omega) _ (head?_dropWhile_nl cs)]
    rw [List.map_cons, List.flatten_cons, IH]
    congr 1
    simp only [List.length_replicate, List.length_cons]
    by_cases h3 : 3 ≤ (cs.takeWhile (fun ch => ch == '\n')).length + 1
    · simp only [h3, if_true]
      rfl
    · simp only [h3, if_false]
      rw [List.replicate_succ]
      congr 1
      exact takeWhile_nl_eq_replicate cs
  | case3 c cs hc IH =>
    have hcn : ¬ c = '\n' := by simpa using hc
    rw [collapseRuns_cons_other _ _ hcn, newlineChunks_cons_other _ _ hcn,
      List.map_cons, List.flatten_cons, IH]
    rfl

/-! ### Claim theorems -/

/-- C1 (counterexample): on the input of four consecutive newlines the code
replaces the run by three newlines, not by the two newlines the claim
prescribes (`replaceLongNewlineRuns 2` is the claimed behaviour). -/
theorem clean_up_new_lines_two_cex :
    clean_up_new_lines "\n\n\n\n" = "\n\n\n"
    ∧ replaceLongNewlineRuns 2 "\n\n\n\n" = "\n\n"
    ∧ ("\n\n\n" : String) ≠ "\n\n" := by
  refine ⟨?_, by decide, by decide⟩
  show String.mk (collapseRuns "\n\n\n\n".data) = "\n\n\n"
  rw [collapseRuns_eq_go]
  decide

/-- C1 (amended): `clean_up_new_lines` replaces every maximal run of three or
more consecutive newline characters with exactly THREE newline characters and
leaves all other characters unchanged. -/
theorem clean_up_new_lines_collapses_to_three (x : String) :
    clean_up_new_lines x = replaceLongNewlineRuns 3 x :=
  congrArg String.mk (collapseRuns_eq_chunks x.data)

/-- C2: a `Column` entry whose lower-cased `data_type` is `"unknown"` never
passes the inclusion test (for any `included_columns` filter) and contributes
nothing to the built DDL, because `is_geometry_type "unknown"` is `false`. -/
theorem unknown_columns_excluded (n cm : String) (cols₁ cols₂ : List TableColumn)
    (c : Column) (columns tables : Option (List String))
    (h : strLower c.data_type = "unknown") :
    build_table_ddl ⟨n, cm, cols₁ ++ TableColumn.column c :: cols₂⟩ columns tables
      = build_table_ddl ⟨n, cm, cols₁ ++ cols₂⟩ columns tables
    ∧ columnIncluded columns c = false
    ∧ is_geometry_type "unknown" = false := by
  have hg : is_geometry_type "unknown" = false := by decide
  have hincl : columnIncluded columns c = false := by
    simp [columnIncluded, h, hg]
  have hdd : buildColumnsDdl columns tables (cols₁ ++ TableColumn.column c :: cols₂)
      = buildColumnsDdl columns tables (cols₁ ++ cols₂) := by
    induction cols₁ with
    | nil => simp [buildColumnsDdl, hincl]
    | cons tc cols₁ IH => cases tc <;> simp [buildColumnsDdl, IH]
  refine ⟨?_, hincl, hg⟩
  simp only [build_table_ddl]
  rw [hdd]

/-- C2 witness. -/
theorem unknown_columns_excluded_witness :
    build_table_ddl ⟨"t", "", [TableColumn.column ⟨"u", "unknown", "", false⟩]⟩
        none none
      = build_table_ddl ⟨"t", "", []⟩ none none :=
  (unknown_columns_excluded "t" "" [] [] ⟨"u", "unknown", "", false⟩ none none
    (by decide)).1

/-- C3: the two-column `users` record with no filters builds exactly the
claimed DDL string with all three flags false. -/
theorem build_users_example :
    build_table_ddl
        ⟨"users", "",
         [TableColumn.column ⟨"id", "INT", "", true⟩,
          TableColumn.column ⟨"name", "VARCHAR", "", false⟩]⟩ none none
      = ("CREATE TABLE users (\n  id INT PRIMARY KEY,\n  name VARCHAR\n);",
         false, false, false) := by
  decide

/-- C4: `get_engine_supported_data_type` returns the canonical value of the
mapping table keyed by the upper-cased input, defaulting to the upper-cased
input itself; its result depends only on the upper-cased input (so it is
case-insensitive), and it is total by construction. -/
theorem engine_type_normalization :
    (∀ s : String, get_engine_supported_data_type s
        = ((engineTypeMap.lookup (strUpper s)).getD (strUpper s)))
    ∧ ∀ s t : String, strUpper s = strUpper t →
        get_engine_supported_data_type s = get_engine_supported_data_type t := by
  constructor
  · intro s
    unfold get_engine_supported_data_type
    split
    all_goals try (rename_i hs; rw [hs]; rfl)
    rename_i h1 h2 h3 h4 h5 h6 h7 h8 h9 h10 h11 h12 h13 h14 h15 h16 h17 h18 h19
    simp only [engineTypeMap, List.lookup,
      beq_eq_false_iff_ne.mpr h1, beq_eq_false_iff_ne.mpr h2,
      beq_eq_false_iff_ne.mpr h3, beq_eq_false_iff_ne.mpr h4,
      beq_eq_false_iff_ne.mpr h5, beq_eq_false_iff_ne.mpr h6,
      beq_eq_false_iff_ne.mpr h7, beq_eq_false_iff_ne.mpr h8,
      beq_eq_false_iff_ne.mpr h9, beq_eq_false_iff_ne.mpr h10,
      beq_eq_false_iff_ne.mpr h11, beq_eq_false_iff_ne.mpr h12,
      beq_eq_false_iff_ne.mpr h13, beq_eq_false_iff_ne.mpr h14,
      beq_eq_false_iff_ne.mpr h15, beq_eq_false_iff_ne.mpr h16,
      beq_eq_false_iff_ne.mpr h17, beq_eq_false_iff_ne.mpr h18,
      beq_eq_false_iff_ne.mpr h19]
    rfl
  · intro s t h
    unfold get_engine_supported_data_type
    rw [h]

/-- C4 witness. -/
theorem engine_type_normalization_witness :
    get_engine_supported_data_type "Oid" = "INT" := by
  rw [engine_type_normalization.1 "Oid"]
  rfl

/-- C5: `is_geometry_type` is true exactly on the strings whose lower-casing
is one of the nine geometry names. -/
theorem is_geometry_type_spec (s : String) :
    is_geometry_type s = true ↔
      (strLower s = "geometry" ∨ strLower s = "geography" ∨ strLower s = "point"
       ∨ strLower s = "linestring" ∨ strLower s = "polygon"
       ∨ strLower s = "multipoint" ∨ strLower s = "multilinestring"
       ∨ strLower s = "multipolygon" ∨ strLower s = "geometrycollection") := by
  simp [is_geometry_type, GEOMETRY_TYPES]

/-- C5 witness. -/
theorem is_geometry_type_spec_witness : is_geometry_type "POINT" = true :=
  (is_geometry_type_spec "POINT").mpr (by decide)

/-- C6 (counterexample): with the present-but-empty filter `some []` the code
appends a foreign key referencing table `"a"` to the DDL, although the claim's
inclusion condition (absent filter, or referenced tables a subset of the
filter) is false there. -/
theorem fk_empty_filter_cex :
    (build_table_ddl
        ⟨"orders", "",
         [TableColumn.foreign_key
            ⟨"", "FOREIGN KEY (a_id) REFERENCES a(id)", ["a"]⟩]⟩
        none (some [])).1
      = "CREATE TABLE orders (\n  FOREIGN KEY (a_id) REFERENCES a(id)\n);"
    ∧ ¬ fkIncludedSpec (some [])
        ⟨"", "FOREIGN KEY (a_id) REFERENCES a(id)", ["a"]⟩ := by
  constructor
  · decide
  · rintro (h | ⟨l, hl, hsub⟩)
    · exact Option.noConfusion h
    · have hla : "a" ∈ l := hsub "a" (by decide)
      rw [← Option.some.inj hl] at hla
      exact absurd hla (by decide)

/-- C6 (amended): a `ForeignKey` entry's clause is appended exactly when
`fkIncluded` holds, and `fkIncluded` holds iff the `included_tables` filter is
absent OR EMPTY, or the referenced tables are a subset of it. -/
theorem fk_inclusion (columns tables : Option (List String)) (fk : ForeignKey)
    (cols₁ cols₂ : List TableColumn) :
    ((buildColumnsDdl columns tables
        (cols₁ ++ TableColumn.foreign_key fk :: cols₂)).1
      = (buildColumnsDdl columns tables cols₁).1
        ++ (if fkIncluded tables fk then [fk.comment ++ fk.constraint] else [])
        ++ (buildColumnsDdl columns tables cols₂).1)
    ∧ (fkIncluded tables fk = true ↔
        (tables = none ∨ tables = some []
         ∨ ∃ l, tables = some l ∧ ∀ t ∈ fk.tables, t ∈ l)) := by
  constructor
  · induction cols₁ with
    | nil =>
      by_cases h : fkIncluded tables fk <;> simp [buildColumnsDdl, h]
    | cons tc cols₁ IH =>
      cases tc with
      | column c =>
        by_cases hc : columnIncluded columns c = true <;>
          simp [buildColumnsDdl, hc, IH, List.append_assoc]
      | foreign_key fk2 =>
        by_cases hf : fkIncluded tables fk2 = true <;>
          simp [buildColumnsDdl, hf, IH, List.append_assoc]
  · match tables with
    | none => simp [fkIncluded, optFalsy]
    | some [] => simp [fkIncluded, optFalsy]
    | some (a :: l) =>
      simp [fkIncluded, optFalsy, optContains, List.all_eq_true]

/-- C6 witness. -/
theorem fk_inclusion_witness :
    fkIncluded (some ["a", "b"]) ⟨"", "FK", ["a"]⟩ = true :=
  (fk_inclusion none (some ["a", "b"]) ⟨"", "FK", ["a"]⟩ [] []).2.mpr
    (Or.inr (Or.inr ⟨["a", "b"], rfl, by decide⟩))

/-- C7: passing the empty set as the columns filter or as the tables filter
behaves exactly like passing no filter at all. -/
theorem empty_filters_no_filtering (content : TableContent)
    (columns tables : Option (List String)) :
    build_table_ddl content (some []) tables = build_table_ddl content none tables
    ∧ build_table_ddl content columns (some []) = build_table_ddl content columns none := by
  have h1 : ∀ l, buildColumnsDdl (some []) tables l = buildColumnsDdl none tables l := by
    intro l
    induction l with
    | nil => rfl
    | cons tc l IH =>
      cases tc <;>
        simp [buildColumnsDdl, columnIncluded, fkIncluded, optFalsy, optContains, IH]
  have h2 : ∀ l, buildColumnsDdl columns (some []) l = buildColumnsDdl columns none l := by
    intro l
    induction l with
    | nil => rfl
    | cons tc l IH =>
      cases tc <;>
        simp [buildColumnsDdl, columnIncluded, fkIncluded, optFalsy, optContains, IH]
  constructor
  · simp only [build_table_ddl]
    rw [h1 content.columns]
  · simp only [build_table_ddl]
    rw [h2 content.columns]

/-- C8: `ScoreFilter.run` keeps only documents scoring at least the threshold
(and only documents from the input), sorted by descending score, returning at
most `max_size` of them; truncation keeps top scores (every returned document
scores at least as high as any omitted qualifying document); and whenever at
most `max_size` documents qualify, every qualifying document is returned. -/
theorem score_filter_run_spec (documents : List Document) (score : ℚ)
    (max_size : Nat) :
    (∀ d ∈ ScoreFilter.run documents score max_size,
        score ≤ d.score ∧ d ∈ documents)
    ∧ List.Pairwise (fun a b : Document => b.score ≤ a.score)
        (ScoreFilter.run documents score max_size)
    ∧ (ScoreFilter.run documents score max_size).length ≤ max_size
    ∧ (∀ d ∈ ScoreFilter.run documents score max_size,
        ∀ e ∈ documents, score ≤ e.score →
          e ∉ ScoreFilter.run documents score max_size → e.score ≤ d.score)
    ∧ ((documents.filter (fun d => decide (score ≤ d.score))).length ≤ max_size →
        ∀ d ∈ documents, score ≤ d.score →
          d ∈ ScoreFilter.run documents score max_size) := by
  have hs := @List.sorted_mergeSort Document
    (fun a b => decide (b.score ≤ a.score))
    (fun a b c hab hbc => by
      simp only [decide_eq_true_eq] at hab hbc ⊢
      exact le_trans hbc hab)
    (fun a b => by
      simp only [Bool.or_eq_true, decide_eq_true_eq]
      exact le_total b.score a.score)
    (documents.filter (fun d => decide (score ≤ d.score)))
  have hp : List.Pairwise (fun a b : Document => b.score ≤ a.score)
      ((documents.filter (fun d => decide (score ≤ d.score))).mergeSort
        (fun a b => decide (b.score ≤ a.score))) :=
    hs.imp (fun h => decide_eq_true_eq.mp h)
  refine ⟨?_, ?_, ?_, ?_, ?_⟩
  · intro d hd
    have h1 : d ∈ (documents.filter (fun d => decide (score ≤ d.score))).mergeSort
        (fun a b => decide (b.score ≤ a.score)) := List.mem_of_mem_take hd
    have h3 := List.mem_filter.mp (List.mem_mergeSort.mp h1)
    exact ⟨by simpa using h3.2, h3.1⟩
  · exact List.Pairwise.sublist (List.take_sublist _ _) hp
  · show (List.take max_size _).length ≤ max_size
    rw [List.length_take]
    exact min_le_left _ _
  · intro d hd e he hescore hnot
    have hemem : e ∈ (documents.filter (fun d => decide (score ≤ d.score))).mergeSort
        (fun a b => decide (b.score ≤ a.score)) :=
      List.mem_mergeSort.mpr (List.mem_filter.mpr ⟨he, by simpa using hescore⟩)
    have hsplit := List.take_append_drop max_size
      ((documents.filter (fun d => decide (score ≤ d.score))).mergeSort
        (fun a b => decide (b.score ≤ a.score)))
    have hedrop : e ∈ List.drop max_size
        ((documents.filter (fun d => decide (score ≤ d.score))).mergeSort
          (fun a b => decide (b.score ≤ a.score))) := by
      rcases List.mem_append.mp (hsplit ▸ hemem) with h | h
      · exact absurd h hnot
      · exact h
    have hcross := (List.pairwise_append.mp (hsplit ▸ hp)).2.2
    exact hcross d hd e hedrop
  · intro hlen d hd hscore
    have hmem : d ∈ documents.filter (fun d => decide (score ≤ d.score)) :=
      List.mem_filter.mpr ⟨hd, by simpa using hscore⟩
    have hmem2 : d ∈ (documents.filter (fun d => decide (score ≤ d.score))).mergeSort
        (fun a b => decide (b.score ≤ a.score)) := List.mem_mergeSort.mpr hmem
    have hlen2 : ((documents.filter (fun d => decide (score ≤ d.score))).mergeSort
        (fun a b => decide (b.score ≤ a.score))).length ≤ max_size := by
      rw [List.length_mergeSort]
      exact hlen
    show d ∈ List.take max_size _
    rw [List.take_of_length_le hlen2]
    exact hmem2

/-- C8 witness. -/
theorem score_filter_run_spec_witness :
    Document.mk 1 [] ∈ ScoreFilter.run [Document.mk 1 []] 0 1 :=
  (score_filter_run_spec [Document.mk 1 []] 0 1).2.2.2.2 (by decide)
    (Document.mk 1 []) (by decide) (by decide)

/-- C9: `retrieve_metadata` returns the first returned document's `meta` when
the retriever returns a non-empty list, and the empty mapping when the
retriever returns the empty list. -/
theorem retrieve_metadata_spec (project_id : String)
    (retriever : Option ProjectFilter → List Document) :
    (retriever (project_filters project_id) = [] →
      retrieve_metadata project_id retriever = [])
    ∧ ∀ doc rest, retriever (project_filters project_id) = doc :: rest →
        retrieve_metadata project_id retriever = doc.meta := by
  constructor
  · intro h
    simp only [retrieve_metadata, h]
  · intro doc rest h
    simp only [retrieve_metadata, h]

/-- C9 witness. -/
theorem retrieve_metadata_spec_witness :
    retrieve_metadata "p1" (fun _ => [Document.mk 1 [("name", "users")]])
      = [("name", "users")] :=
  (retrieve_metadata_spec "p1" (fun _ => [Document.mk 1 [("name", "users")]])).2
    (Document.mk 1 [("name", "users")]) [] rfl

/-- C10: `clean_up_new_lines` is idempotent. -/
theorem clean_up_new_lines_idem (x : String) :
    clean_up_new_lines (clean_up_new_lines x) = clean_up_new_lines x := by
  show String.mk (collapseRuns (String.mk (collapseRuns x.data)).data)
      = String.mk (collapseRuns x.data)
  have hdata : (String.mk (collapseRuns x.data)).data = collapseRuns x.data := rfl
  rw [hdata, collapseRuns_eq_go x.data, collapseRuns_eq_go (collapseGo 0 x.data)]
  exact congrArg String.mk (collapseGo_idem x.data 0)

end Tabaqat
